import Mathlib

/-!
# Verification of the FontSnip matching core

A shallow embedding, in Lean 4, of the numeric matching pipeline of the
FontSnip repository:

* `src/matching/font_matcher.py` — `FontMatcher._load_database`,
  `FontMatcher._calculate_target_vector`, `FontMatcher._cosine_similarity`,
  `FontMatcher.find_best_matches`;
* `src/matching/feature_extractor.py` — `extract_features`.

Python floats are modelled exactly: vectors are lists of rationals (`List ℚ`),
and the one genuinely irrational operation, `np.linalg.norm`'s square root, is
modelled by `Real.sqrt`, so cosine similarities live in `ℝ`.  A Python dict,
whose iteration order is its insertion order, is modelled by an association
list in that order.  `None` returns become `Option`, raised exceptions become
`Except`.
-/

namespace FontSnip

/-! ## The matching engine (`src/matching/font_matcher.py`) -/

/-- `np.dot vec1 vec2` for equal-length 1-D arrays: the sum of componentwise
products.  (On unequal lengths `np.dot` raises; theorems below that depend on
the distinction carry equal-length hypotheses.) -/
def dot (v1 v2 : List ℚ) : ℚ := (List.zipWith (· * ·) v1 v2).sum

/-- The squared Euclidean norm of a vector, `dot v v`. -/
def normSq (v : List ℚ) : ℚ := dot v v

/-- `np.linalg.norm v`: the Euclidean norm, the square root of `normSq`. -/
noncomputable def norm (v : List ℚ) : ℝ := Real.sqrt (normSq v)

open Classical in
/-- `FontMatcher._cosine_similarity` (font_matcher.py:102-121): returns `0.0`
when either norm is zero, otherwise `dot / (norm * norm)`. -/
noncomputable def cosine_similarity (v1 v2 : List ℚ) : ℝ :=
  if norm v1 = 0 ∨ norm v2 = 0 then 0
  else ((dot v1 v2 : ℚ) : ℝ) / (norm v1 * norm v2)

/-- The componentwise sum of a non-empty family of equal-length vectors
(the reduction inside `np.mean(_, axis=0)`). -/
def sum_vecs : List (List ℚ) → List ℚ
  | [] => []
  | v :: rest =>
    match rest with
    | [] => v
    | _ :: _ => List.zipWith (· + ·) v (sum_vecs rest)

/-- `np.mean(np.array vs, axis=0)` for equal-length vectors: the componentwise
arithmetic mean. -/
def mean_vecs (vs : List (List ℚ)) : List ℚ :=
  (sum_vecs vs).map (fun x => x / (vs.length : ℚ))

/-- `FontMatcher._calculate_target_vector` (font_matcher.py:72-100): `None` on
an empty input; otherwise vectors whose length differs from the first vector's
length are filtered out, `None` is returned if nothing remains (dead in fact,
since the first vector always survives), and otherwise the componentwise mean
of what remains. -/
def calculate_target_vector (cf : List (List ℚ)) : Option (List ℚ) :=
  match cf with
  | [] => none
  | v0 :: _ =>
    let n := v0.length
    let cf' := if cf.all (fun v => v.length == n) then cf
               else cf.filter (fun v => v.length == n)
    if cf' = [] then none
    else some (mean_vecs cf')

open Classical in
/-- `FontMatcher.find_best_matches` (font_matcher.py:123-163).  The database is
the dict `font_database` in its (insertion = load) iteration order.  An empty
database, a `None` target, or a target whose length differs from the first
database vector's length all return `[]`.  Otherwise every entry is scored with
`cosine_similarity`, the scores are sorted by similarity descending with
Python's stable `list.sort(key=..., reverse=True)` — modelled by `mergeSort`
with the boolean comparison `snd y ≤ snd x`, which is stable in exactly the
same sense — and the first `topN` survive. -/
noncomputable def find_best_matches (db : List (String × List ℚ))
    (character_features : List (List ℚ)) (topN : ℕ) : List (String × ℝ) :=
  match db with
  | [] => []
  | (_, v0) :: _ =>
    match calculate_target_vector character_features with
    | none => []
    | some target =>
      if target.length ≠ v0.length then []
      else
        let scores := db.map (fun p => (p.1, cosine_similarity target p.2))
        (scores.mergeSort (fun a b => decide (b.2 ≤ a.2))).take topN

/-! ### The database loader (`FontMatcher._load_database`, font_matcher.py:43-70)

The loader touches the filesystem and `pickle`, so its input is modelled as
what the environment hands the code: `none` when `os.path.exists` is false,
`some content` otherwise, where the content is either a payload `pickle.load`
rejects, a successfully unpickled object that is not a mapping (on which
`data.items()` raises an `AttributeError` that the `except` clause — which
names only `UnpicklingError`, `EOFError`, `ImportError` and `IndexError` —
does not catch), or an unpickled mapping, carried as its (string, numeric
vector) pairs in dict order.  No validation of the vectors' lengths happens
anywhere in the loader. -/

/-- The possible contents of the database file, as seen after `pickle`. -/
inductive DbFileContent where
  | malformed
  | notDict
  | parsed (entries : List (String × List ℚ))
deriving DecidableEq

/-- How loading can fail: `databaseNotFound` is the `FileNotFoundError` raised
when the file is absent, `databaseCorrupt` the generic `Exception` raised from
the `except` clause, and `unhandled` an exception that escapes uncaught. -/
inductive LoadError where
  | databaseNotFound
  | databaseCorrupt
  | unhandled
deriving DecidableEq

/-- `FontMatcher._load_database` (font_matcher.py:43-70) over the modelled file
content. -/
def load_database : Option DbFileContent → Except LoadError (List (String × List ℚ))
  | none => .error .databaseNotFound
  | some .malformed => .error .databaseCorrupt
  | some .notDict => .error .unhandled
  | some (.parsed entries) => .ok entries

/-! ## The aggregation step, against the specification's wording -/

/-- The aggregation step as the specification words it, for comparison with
`calculate_target_vector`: drop any vector whose length differs from the
canonical dimensionality 7; return `none` exactly when no vectors remain;
otherwise return the componentwise mean of the remaining vectors. -/
def aggregate_spec (vectors : List (List ℚ)) : Option (List ℚ) :=
  let kept := vectors.filter (fun v => v.length == 7)
  if kept = [] then none else some (mean_vecs kept)

/-- C3, counterexample — the code never mentions the canonical dimensionality:
it keeps whatever matches the FIRST vector's length.  On the single 2-component
vector `[1, 2]` the specification's aggregation (`aggregate_spec`) drops it and
returns Empty, while `_calculate_target_vector` keeps it and returns its mean
`[1, 2]`. -/
theorem calculate_target_vector_counterexample :
    calculate_target_vector [[1, 2]] = some [1, 2] ∧
    aggregate_spec [[1, 2]] = none := by
  constructor
  · simp [calculate_target_vector, mean_vecs, sum_vecs]
  · simp [aggregate_spec]

/-- C3, amended — `_calculate_target_vector` returns `none` exactly on an empty
input; on a non-empty input it drops the vectors whose length differs from the
FIRST vector's length (so at least the first always remains) and returns the
componentwise mean of the remaining vectors. -/
theorem calculate_target_vector_spec :
    calculate_target_vector ([] : List (List ℚ)) = none ∧
    ∀ (v0 : List ℚ) (rest : List (List ℚ)),
      calculate_target_vector (v0 :: rest) =
        some (mean_vecs ((v0 :: rest).filter (fun v => v.length == v0.length))) := by
  refine ⟨rfl, fun v0 rest => ?_⟩
  simp only [calculate_target_vector]
  by_cases hall : (v0 :: rest).all (fun v => v.length == v0.length) = true
  · rw [if_pos hall]
    have hfil : (v0 :: rest).filter (fun v => v.length == v0.length) = v0 :: rest :=
      List.filter_eq_self.mpr (List.all_eq_true.mp hall)
    rw [if_neg (List.cons_ne_nil v0 rest), hfil]
  · rw [if_neg hall]
    have hmem : v0 ∈ (v0 :: rest).filter (fun v => v.length == v0.length) :=
      List.mem_filter.mpr ⟨List.mem_cons_self v0 rest, by simp⟩
    rw [if_neg (List.ne_nil_of_mem hmem)]

/-- C5, counterexample — the loader performs no validation of the parsed
vectors: a database whose two entries have lengths 2 and 3 (neither of them 7,
and mutually inconsistent) loads successfully. -/
theorem load_database_counterexample :
    load_database (some (.parsed [("a", [1, 2]), ("b", [1, 2, 3])])) =
      .ok [("a", [1, 2]), ("b", [1, 2, 3])] ∧
    ¬ (∀ p ∈ [("a", ([1, 2] : List ℚ)), ("b", [1, 2, 3])], p.2.length = 7) :=
  ⟨rfl, by decide⟩

/-- C5, amended — loading fails with `DatabaseNotFound` (a `FileNotFoundError`)
when the file is absent and with `DatabaseCorrupt` (the generic `Exception`)
when the payload cannot be unpickled; a payload that unpickles to a non-mapping
escapes as an unhandled exception; and any list of parsed (identifier, vector)
pairs loads successfully unchanged, with no dimensionality check at all. -/
theorem load_database_spec :
    load_database none = .error .databaseNotFound ∧
    load_database (some .malformed) = .error .databaseCorrupt ∧
    load_database (some .notDict) = .error .unhandled ∧
    ∀ entries, load_database (some (.parsed entries)) = .ok entries :=
  ⟨rfl, rfl, rfl, fun _ => rfl⟩

/-- C4, counterexample — on a dimension mismatch `find_best_matches` does not
fail with a distinguishable `DimensionMismatch` error: it returns the plain
empty list (after printing), the very same value produced by the normal
"no usable features" outcome, so the two cases are not distinct to the
caller. -/
theorem find_best_matches_mismatch_counterexample :
    find_best_matches [("A", [1, 2, 3])] [[1, 2]] 5 = [] ∧
    find_best_matches [("A", [1, 2, 3])] ([] : List (List ℚ)) 5 = [] := by
  constructor
  · have ht : calculate_target_vector [[1, 2]] = some [1, 2] := by
      simp [calculate_target_vector, mean_vecs, sum_vecs]
    simp [find_best_matches, ht]
  · simp [find_best_matches, calculate_target_vector]

/-- C4, amended — whenever the target vector exists and its length differs
from the length of the first database entry's vector (with a non-empty
database), `find_best_matches` aborts the current request by returning the
empty list — the same value as the "no match" outcome. -/
theorem find_best_matches_dimension_mismatch (name0 : String) (v0 : List ℚ)
    (rest : List (String × List ℚ)) (cf : List (List ℚ)) (topN : ℕ)
    (target : List ℚ) (ht : calculate_target_vector cf = some target)
    (hdim : target.length ≠ v0.length) :
    find_best_matches ((name0, v0) :: rest) cf topN = [] := by
  simp [find_best_matches, ht, hdim]

/-- Witness for the amended C4 at a concrete mismatched input. -/
theorem find_best_matches_dimension_mismatch_witness :
    find_best_matches [("B", [1, 2, 3, 4])] [[5, 6]] 3 = [] :=
  find_best_matches_dimension_mismatch "B" [1, 2, 3, 4] [] [[5, 6]] 3 [5, 6]
    (by simp [calculate_target_vector, mean_vecs, sum_vecs]) (by decide)

/-- C8 — `find_best_matches` is a pure function of the database (in its fixed
iteration order), the character features and `topN`: two runs on identical
inputs return identical ordered output. -/
theorem find_best_matches_deterministic (db1 db2 : List (String × List ℚ))
    (cf1 cf2 : List (List ℚ)) (n1 n2 : ℕ)
    (hdb : db1 = db2) (hcf : cf1 = cf2) (hn : n1 = n2) :
    find_best_matches db1 cf1 n1 = find_best_matches db2 cf2 n2 := by
  rw [hdb, hcf, hn]

/-- Witness for C8 at a concrete input. -/
theorem find_best_matches_deterministic_witness :
    find_best_matches [("A", [1, 2])] [[2, 1]] 3 =
      find_best_matches [("A", [1, 2])] [[2, 1]] 3 :=
  find_best_matches_deterministic [("A", [1, 2])] [("A", [1, 2])]
    [[2, 1]] [[2, 1]] 3 3 rfl rfl rfl

open Classical in
/-- C2 — in the non-degenerate case (non-empty database of consistent
dimensionality — the regime where every `np.dot` in the scoring loop is
defined — a target vector, and matching dimensions) `find_best_matches` scores
every database entry, sorts the scores by similarity descending — stably, so
ties keep the database's fixed iteration order — and returns the first `topN`
of them, hence at most `topN` results. -/
theorem find_best_matches_spec (name0 : String) (v0 : List ℚ)
    (rest : List (String × List ℚ)) (cf : List (List ℚ)) (topN : ℕ)
    (target : List ℚ)
    (_hdb : ∀ p ∈ rest, p.2.length = v0.length)
    (ht : calculate_target_vector cf = some target)
    (hdim : target.length = v0.length) :
    let db := (name0, v0) :: rest
    let scores := db.map (fun p => (p.1, cosine_similarity target p.2))
    let sorted := scores.mergeSort (fun a b => decide (b.2 ≤ a.2))
    find_best_matches db cf topN = sorted.take topN ∧
    sorted.Perm scores ∧
    sorted.Pairwise (fun a b : String × ℝ => b.2 ≤ a.2) ∧
    (∀ a b : String × ℝ,
      List.Sublist [a, b] scores → b.2 ≤ a.2 → List.Sublist [a, b] sorted) ∧
    (find_best_matches db cf topN).length ≤ topN := by
  intro db scores sorted
  have htrans : ∀ a b c : String × ℝ,
      (fun x y : String × ℝ => decide (y.2 ≤ x.2)) a b →
      (fun x y : String × ℝ => decide (y.2 ≤ x.2)) b c →
      (fun x y : String × ℝ => decide (y.2 ≤ x.2)) a c := by
    intro a b c hab hbc
    simp only [decide_eq_true_eq] at *
    exact le_trans hbc hab
  have htotal : ∀ a b : String × ℝ,
      ((fun x y : String × ℝ => decide (y.2 ≤ x.2)) a b ||
        (fun x y : String × ℝ => decide (y.2 ≤ x.2)) b a) := by
    intro a b
    simp only [Bool.or_eq_true, decide_eq_true_eq]
    exact le_total b.2 a.2
  have h1 : find_best_matches db cf topN = sorted.take topN := by
    show find_best_matches ((name0, v0) :: rest) cf topN = sorted.take topN
    simp only [find_best_matches, ht]
    rw [if_neg (not_not_intro hdim)]
  refine ⟨h1, List.mergeSort_perm scores _, ?_, ?_, ?_⟩
  · exact (List.sorted_mergeSort htrans htotal scores).imp
      (fun h => decide_eq_true_eq.mp h)
  · intro a b hsub hle
    exact List.pair_sublist_mergeSort htrans htotal (decide_eq_true hle) hsub
  · rw [h1, List.length_take]
    exact min_le_left _ _

open Classical in
/-- Witness for C2 at a concrete two-font database and one-glyph snip. -/
theorem find_best_matches_spec_witness :
    find_best_matches [("A", [1, 0]), ("B", [0, 1])] [[1, 0]] 2 =
      (([("A", ([1, 0] : List ℚ)), ("B", [0, 1])].map
          (fun p => (p.1, cosine_similarity [1, 0] p.2))).mergeSort
        (fun a b => decide (b.2 ≤ a.2))).take 2 ∧
    (find_best_matches [("A", [1, 0]), ("B", [0, 1])] [[1, 0]] 2).length ≤ 2 := by
  have h := find_best_matches_spec "A" [1, 0] [("B", [0, 1])] [[1, 0]] 2 [1, 0]
    (by decide) (by simp [calculate_target_vector, mean_vecs, sum_vecs]) rfl
  exact ⟨h.1, h.2.2.2.2⟩

/-! ## The feature extractor (`src/matching/feature_extractor.py`)

A single-channel image is a list of rows of natural-number pixel values (the
code coerces its input to `uint8`; the claims about the extractor only concern
values in `{0, 255}`).  `cv2.moments` on such an image computes the raster
moments `m00 = Σ I(x,y)`, `m10 = Σ x·I(x,y)`, `m01 = Σ y·I(x,y)`; these are
embedded directly.  The contour stage (`cv2.findContours` with `RETR_CCOMP`,
`cv2.arcLength`, `cv2.contourArea`, and the hole count read off the hierarchy,
feature_extractor.py:77-101) calls into OpenCV, an external library; it is
modelled as a parameter `contour : Image → ContourData` supplying the hole
count, total perimeter and total (signed-sum) area, and every theorem below
holds for an arbitrary such parameter, since none of the claims constrains
those three components. -/

/-- A single-channel bitmap: a list of rows of pixel values. -/
structure Image where
  pixels : List (List ℕ)
deriving DecidableEq

/-- `shape[0]`: the number of rows. -/
def Image.h (img : Image) : ℕ := img.pixels.length

/-- `shape[1]`: the length of the first row (`0` for an empty array). -/
def Image.w (img : Image) : ℕ :=
  match img.pixels with
  | [] => 0
  | r :: _ => r.length

/-- `ndarray.size`: the total number of stored pixels. -/
def Image.size (img : Image) : ℕ := (img.pixels.map List.length).sum

/-- Well-formedness of the model: every row has length `w`, as in a true 2-D
`numpy` array. -/
def Image.rect (img : Image) : Prop := ∀ r ∈ img.pixels, r.length = img.w

instance (img : Image) : Decidable img.rect := by
  unfold Image.rect; infer_instance

/-- `np.count_nonzero`: the number of nonzero pixels. -/
def countNonzero (img : Image) : ℕ :=
  (img.pixels.map (fun r => r.countP (fun x => x ≠ 0))).sum

/-- `Σ_j (i + j) * l[j]`: a row's pixel values weighted by their positions,
counted from offset `i`. -/
def rowWeighted : ℕ → List ℕ → ℕ
  | _, [] => 0
  | i, a :: l => i * a + rowWeighted (i + 1) l

/-- Raster moment `m00 = Σ I(x,y)`, the total mass. -/
def m00 (img : Image) : ℕ := (img.pixels.map List.sum).sum

/-- Raster moment `m10 = Σ x·I(x,y)`, with `x` the column index. -/
def m10 (img : Image) : ℕ := (img.pixels.map (rowWeighted 0)).sum

/-- Raster moment `m01 = Σ y·I(x,y)`, with `y` the row index: each row's total
mass weighted by its row index. -/
def m01 (img : Image) : ℕ := rowWeighted 0 (img.pixels.map List.sum)

/-- The output of the contour stage: the hole count from the two-level
hierarchy, and the summed `arcLength` and `contourArea` over all contours. -/
structure ContourData where
  numHoles : ℕ
  totalPerimeter : ℚ
  totalArea : ℚ

/-- `extract_features` (feature_extractor.py:29-113), over a contour-stage
parameter.  A `None`/zero-`size` input, a zero dimension or a bitmap with no
nonzero pixel short-circuits to the all-zero 7-vector; otherwise the vector is
`[aspect ratio w/h, pixel density, normalized centroid x, normalized centroid
y, hole count, perimeter/(h+w), area/(h*w)]`, with the centroid defaulting to
`(1/2, 1/2)` when the total mass `m00` is zero. -/
def extract_features (contour : Image → ContourData) (img : Image) : List ℚ :=
  if img.size = 0 then List.replicate 7 0
  else if img.h = 0 ∨ img.w = 0 ∨ countNonzero img = 0 then List.replicate 7 0
  else
    let totalPixels : ℚ := ((img.h * img.w : ℕ) : ℚ)
    let density : ℚ := (countNonzero img : ℚ) / totalPixels
    let cxy : ℚ × ℚ :=
      if m00 img = 0 then (1/2, 1/2)
      else ((m10 img : ℚ) / (m00 img : ℚ) / (img.w : ℚ),
            (m01 img : ℚ) / (m00 img : ℚ) / (img.h : ℚ))
    let cd := contour img
    let normPerim : ℚ :=
      if img.h + img.w > 0 then cd.totalPerimeter / ((img.h + img.w : ℕ) : ℚ) else 0
    let normArea : ℚ :=
      if img.h * img.w > 0 then cd.totalArea / totalPixels else 0
    [(img.w : ℚ) / (img.h : ℚ), density, cxy.1, cxy.2,
     (cd.numHoles : ℚ), normPerim, normArea]

/-! ## Basic lemmas about the similarity kernel -/

lemma normSq_cons (a : ℚ) (v : List ℚ) : normSq (a :: v) = a * a + normSq v := by
  simp [normSq, dot]

lemma normSq_nonneg (v : List ℚ) : 0 ≤ normSq v := by
  induction v with
  | nil => simp [normSq, dot]
  | cons a v ih =>
    rw [normSq_cons]
    exact add_nonneg (mul_self_nonneg a) ih

lemma normSq_eq_zero_iff (v : List ℚ) : normSq v = 0 ↔ ∀ x ∈ v, x = 0 := by
  induction v with
  | nil => simp [normSq, dot]
  | cons a v ih =>
    rw [normSq_cons]
    rw [add_eq_zero_iff_of_nonneg (mul_self_nonneg a) (normSq_nonneg v)]
    simp [mul_self_eq_zero, ih]

lemma norm_eq_zero_iff (v : List ℚ) : norm v = 0 ↔ normSq v = 0 := by
  rw [norm, Real.sqrt_eq_zero (by exact_mod_cast normSq_nonneg v)]
  exact_mod_cast Iff.rfl

lemma dot_comm (v1 v2 : List ℚ) : dot v1 v2 = dot v2 v1 := by
  unfold dot
  rw [List.zipWith_comm_of_comm _ mul_comm]

/-- C1 — `_cosine_similarity` computes `dot / (norm * norm)`, and returns
exactly `0.0` whenever either norm is zero, so no division by zero occurs and a
degenerate vector scores `0` against everything. -/
theorem cosine_similarity_spec (v1 v2 : List ℚ) (_hlen : v1.length = v2.length) :
    ((norm v1 = 0 ∨ norm v2 = 0) → cosine_similarity v1 v2 = 0) ∧
    (norm v1 ≠ 0 → norm v2 ≠ 0 →
      cosine_similarity v1 v2 = ((dot v1 v2 : ℚ) : ℝ) / (norm v1 * norm v2)) := by
  constructor
  · intro h
    rw [cosine_similarity, if_pos h]
  · intro h1 h2
    rw [cosine_similarity, if_neg (by tauto)]

/-- Witness for C1 at concrete inputs: the zero vector scores `0` against
`[1, 2]`, and `[3, 4]` against `[1, 2]` is the normalized dot product. -/
theorem cosine_similarity_spec_witness :
    cosine_similarity [0, 0] [1, 2] = 0 ∧
    cosine_similarity [3, 4] [1, 2] =
      ((dot [3, 4] [1, 2] : ℚ) : ℝ) / (norm [3, 4] * norm [1, 2]) := by
  have h0 : norm [0, 0] = 0 := by
    rw [norm_eq_zero_iff]; norm_num [normSq, dot]
  have h1 : norm [3, 4] ≠ 0 := by
    rw [Ne, norm_eq_zero_iff]; norm_num [normSq, dot]
  have h2 : norm [1, 2] ≠ 0 := by
    rw [Ne, norm_eq_zero_iff]; norm_num [normSq, dot]
  exact ⟨(cosine_similarity_spec [0, 0] [1, 2] (by decide)).1 (Or.inl h0),
         (cosine_similarity_spec [3, 4] [1, 2] (by decide)).2 h1 h2⟩

/-- C7 — similarity is symmetric, a vector with a nonzero component has
similarity `1.0` with itself, and a zero vector has similarity `0.0` with
anything. -/
theorem cosine_similarity_algebra :
    (∀ v1 v2 : List ℚ, v1.length = v2.length →
      cosine_similarity v1 v2 = cosine_similarity v2 v1) ∧
    (∀ v : List ℚ, (∃ x ∈ v, x ≠ 0) → cosine_similarity v v = 1) ∧
    (∀ v1 v2 : List ℚ, v1.length = v2.length →
      ((∀ x ∈ v1, x = 0) ∨ (∀ x ∈ v2, x = 0)) → cosine_similarity v1 v2 = 0) := by
  refine ⟨?_, ?_, ?_⟩
  · intro v1 v2 _
    unfold cosine_similarity
    by_cases h : norm v1 = 0 ∨ norm v2 = 0
    · rw [if_pos h, if_pos (Or.symm h)]
    · rw [if_neg h, if_neg (fun hc => h (Or.symm hc)), dot_comm, mul_comm]
  · intro v hv
    have hsq : normSq v ≠ 0 := by
      rw [Ne, normSq_eq_zero_iff]
      rcases hv with ⟨x, hx, hne⟩
      exact fun hall => hne (hall x hx)
    have hn : norm v ≠ 0 := fun h => hsq ((norm_eq_zero_iff v).mp h)
    rw [cosine_similarity, if_neg (by tauto)]
    have hdot : dot v v = normSq v := rfl
    rw [hdot, norm, Real.mul_self_sqrt (by exact_mod_cast normSq_nonneg v)]
    exact div_self (by exact_mod_cast hsq)
  · intro v1 v2 _ h
    have : norm v1 = 0 ∨ norm v2 = 0 := by
      rcases h with h | h
      · exact Or.inl ((norm_eq_zero_iff v1).mpr ((normSq_eq_zero_iff v1).mpr h))
      · exact Or.inr ((norm_eq_zero_iff v2).mpr ((normSq_eq_zero_iff v2).mpr h))
    rw [cosine_similarity, if_pos this]

/-- Witness for C7 at concrete inputs. -/
theorem cosine_similarity_algebra_witness :
    cosine_similarity [1, 2] [3, 4] = cosine_similarity [3, 4] [1, 2] ∧
    cosine_similarity [3, 4] [3, 4] = 1 ∧
    cosine_similarity [0, 0] [5, 6] = 0 :=
  ⟨cosine_similarity_algebra.1 [1, 2] [3, 4] (by decide),
   cosine_similarity_algebra.2.1 [3, 4] (by decide),
   cosine_similarity_algebra.2.2 [0, 0] [5, 6] (by decide) (Or.inl (by decide))⟩

/-! ## Lemmas about the extractor's geometry -/

lemma sum_map_length_eq (L : List (List ℕ)) (w : ℕ) (h : ∀ r ∈ L, r.length = w) :
    (L.map List.length).sum = L.length * w := by
  induction L with
  | nil => simp
  | cons r L ih =>
    simp only [List.map_cons, List.sum_cons, List.length_cons]
    rw [h r (List.mem_cons_self r L), ih (fun x hx => h x (List.mem_cons_of_mem r hx))]
    ring

lemma size_eq_mul (img : Image) (hrect : img.rect) : img.size = img.h * img.w :=
  sum_map_length_eq img.pixels img.w hrect

lemma countNonzero_le_size (img : Image) : countNonzero img ≤ img.size :=
  List.sum_le_sum fun _ _ => List.countP_le_length _

lemma row_sum_eq_zero_iff (r : List ℕ) :
    r.sum = 0 ↔ r.countP (fun x => x ≠ 0) = 0 := by
  induction r with
  | nil => simp
  | cons a r ih =>
    by_cases ha : a = 0 <;>
      simp [List.countP_cons, Nat.add_eq_zero, ih, ha]

lemma m00_eq_zero_iff (img : Image) : m00 img = 0 ↔ countNonzero img = 0 := by
  unfold m00 countNonzero
  induction img.pixels with
  | nil => simp
  | cons r L ih =>
    simp only [List.map_cons, List.sum_cons, Nat.add_eq_zero]
    rw [ih, row_sum_eq_zero_iff]

lemma rowWeighted_le (i : ℕ) (l : List ℕ) :
    rowWeighted i l ≤ (i + l.length) * l.sum := by
  induction l generalizing i with
  | nil => simp [rowWeighted]
  | cons a l ih =>
    simp only [rowWeighted, List.length_cons, List.sum_cons]
    calc i * a + rowWeighted (i + 1) l
        ≤ i * a + (i + 1 + l.length) * l.sum := Nat.add_le_add_left (ih (i + 1)) _
      _ ≤ (i + l.length + 1) * a + (i + 1 + l.length) * l.sum :=
          Nat.add_le_add_right (Nat.mul_le_mul_right a (by omega)) _
      _ = (i + (l.length + 1)) * (a + l.sum) := by ring

lemma m10_le (img : Image) (hrect : img.rect) : m10 img ≤ img.w * m00 img := by
  unfold m10 m00
  calc (img.pixels.map (rowWeighted 0)).sum
      ≤ (img.pixels.map (fun r => img.w * r.sum)).sum := by
        apply List.sum_le_sum
        intro r hr
        have h := rowWeighted_le 0 r
        rwa [Nat.zero_add, hrect r hr] at h
    _ = img.w * (img.pixels.map List.sum).sum :=
          List.sum_map_mul_left img.pixels List.sum img.w

lemma m01_le (img : Image) : m01 img ≤ img.h * m00 img := by
  unfold m01 m00 Image.h
  have h := rowWeighted_le 0 (img.pixels.map List.sum)
  rwa [Nat.zero_add, List.length_map] at h

lemma dims_pos (img : Image) (hrect : img.rect) (hfg : countNonzero img ≠ 0) :
    0 < img.h ∧ 0 < img.w := by
  have h1 := countNonzero_le_size img
  rw [size_eq_mul img hrect] at h1
  have h2 : img.h * img.w ≠ 0 := fun h => hfg (Nat.le_zero.mp (h ▸ h1))
  obtain ⟨hh, hw⟩ := Nat.mul_ne_zero_iff.mp h2
  exact ⟨Nat.pos_of_ne_zero hh, Nat.pos_of_ne_zero hw⟩

/-- On a well-formed bitmap with at least one foreground pixel,
`extract_features` takes its main branch and produces the seven features in
order. -/
lemma extract_features_of_fg (contour : Image → ContourData) (img : Image)
    (hrect : img.rect) (hfg : countNonzero img ≠ 0) :
    extract_features contour img =
      [(img.w : ℚ) / (img.h : ℚ),
       (countNonzero img : ℚ) / ((img.h * img.w : ℕ) : ℚ),
       (m10 img : ℚ) / (m00 img : ℚ) / (img.w : ℚ),
       (m01 img : ℚ) / (m00 img : ℚ) / (img.h : ℚ),
       ((contour img).numHoles : ℚ),
       (contour img).totalPerimeter / ((img.h + img.w : ℕ) : ℚ),
       (contour img).totalArea / ((img.h * img.w : ℕ) : ℚ)] := by
  obtain ⟨hh, hw⟩ := dims_pos img hrect hfg
  have hsize : img.size ≠ 0 := by
    rw [size_eq_mul img hrect]
    exact Nat.mul_ne_zero (Nat.pos_iff_ne_zero.mp hh) (Nat.pos_iff_ne_zero.mp hw)
  have hm00 : m00 img ≠ 0 := fun h => hfg ((m00_eq_zero_iff img).mp h)
  have hguard : ¬(img.h = 0 ∨ img.w = 0 ∨ countNonzero img = 0) := by
    push_neg
    exact ⟨Nat.pos_iff_ne_zero.mp hh, Nat.pos_iff_ne_zero.mp hw, hfg⟩
  unfold extract_features
  rw [if_neg hsize, if_neg hguard]
  simp only [if_neg hm00, if_pos (show img.h + img.w > 0 by omega),
    if_pos (show img.h * img.w > 0 from Nat.mul_pos hh hw)]

/-- C6 — a bitmap of zero area, or with zero foreground pixels, makes
`extract_features` return the all-zero 7-component sentinel; the embedding is a
total function, so no error reaches the caller. -/
theorem extract_features_sentinel (contour : Image → ContourData) (img : Image)
    (h : img.size = 0 ∨ countNonzero img = 0) :
    extract_features contour img = List.replicate 7 0 := by
  unfold extract_features
  rcases h with h | h
  · rw [if_pos h]
  · by_cases hs : img.size = 0
    · rw [if_pos hs]
    · rw [if_neg hs, if_pos (Or.inr (Or.inr h))]

/-- Witness for C6: a 2×2 all-background bitmap. -/
theorem extract_features_sentinel_witness :
    extract_features (fun _ => ⟨0, 0, 0⟩) ⟨[[0, 0], [0, 0]]⟩ = List.replicate 7 0 :=
  extract_features_sentinel (fun _ => ⟨0, 0, 0⟩) ⟨[[0, 0], [0, 0]]⟩
    (Or.inr (by decide))

/-- C9 — the first component of the feature vector is `width / height`: `0.5`
for a 20-row × 10-column glyph bitmap and `2.0` for a 10-row × 20-column one
(the spec's `20×10` and `10×20` read in row-major shape order, which is what
makes its two expected values consistent with `aspect_ratio = w / h`). -/
theorem extract_features_aspect (contour : Image → ContourData) (img : Image)
    (hrect : img.rect) (hfg : countNonzero img ≠ 0) :
    (img.h = 20 → img.w = 10 →
      (extract_features contour img)[0]? = some ((1 : ℚ) / 2)) ∧
    (img.h = 10 → img.w = 20 →
      (extract_features contour img)[0]? = some (2 : ℚ)) := by
  refine ⟨fun h1 h2 => ?_, fun h1 h2 => ?_⟩ <;>
  · rw [extract_features_of_fg contour img hrect hfg, h1, h2]
    simp only [List.getElem?_cons_zero, Option.some.injEq]
    norm_num

/-- Witness for C9: a 20×10 and a 10×20 bitmap, each with one lit pixel. -/
theorem extract_features_aspect_witness :
    (extract_features (fun _ => ⟨0, 0, 0⟩)
      ⟨(255 :: List.replicate 9 0) :: List.replicate 19 (List.replicate 10 0)⟩)[0]? =
        some ((1 : ℚ) / 2) ∧
    (extract_features (fun _ => ⟨0, 0, 0⟩)
      ⟨(255 :: List.replicate 19 0) :: List.replicate 9 (List.replicate 20 0)⟩)[0]? =
        some (2 : ℚ) :=
  ⟨(extract_features_aspect _ _ (by decide) (by decide)).1 (by decide) (by decide),
   (extract_features_aspect _ _ (by decide) (by decide)).2 (by decide) (by decide)⟩

/-- C10 — on a single-channel bitmap with values in `{0, 255}`, at least one
foreground pixel and rectangular shape, the pixel-density component lies in
`(0, 1]` and both normalized centroid components lie in `[0, 1]`. -/
theorem extract_features_ranges (contour : Image → ContourData) (img : Image)
    (hrect : img.rect)
    (_hbin : ∀ r ∈ img.pixels, ∀ x ∈ r, x = 0 ∨ x = 255)
    (hfg : countNonzero img ≠ 0) :
    ∃ d cx cy : ℚ,
      (extract_features contour img)[1]? = some d ∧
      (extract_features contour img)[2]? = some cx ∧
      (extract_features contour img)[3]? = some cy ∧
      0 < d ∧ d ≤ 1 ∧ 0 ≤ cx ∧ cx ≤ 1 ∧ 0 ≤ cy ∧ cy ≤ 1 := by
  obtain ⟨hh, hw⟩ := dims_pos img hrect hfg
  have hm00 : m00 img ≠ 0 := fun h => hfg ((m00_eq_zero_iff img).mp h)
  have hm00R : (0 : ℚ) < (m00 img : ℚ) := by
    exact_mod_cast Nat.pos_of_ne_zero hm00
  have hwR : (0 : ℚ) < (img.w : ℚ) := by exact_mod_cast hw
  have hhR : (0 : ℚ) < (img.h : ℚ) := by exact_mod_cast hh
  have hareaR : (0 : ℚ) < ((img.h * img.w : ℕ) : ℚ) := by
    exact_mod_cast Nat.mul_pos hh hw
  have hcount : countNonzero img ≤ img.h * img.w :=
    size_eq_mul img hrect ▸ countNonzero_le_size img
  rw [extract_features_of_fg contour img hrect hfg]
  refine ⟨_, _, _, rfl, rfl, rfl, ?_, ?_, ?_, ?_, ?_, ?_⟩
  · exact div_pos (by exact_mod_cast Nat.pos_of_ne_zero hfg) hareaR
  · exact (div_le_one hareaR).mpr (by exact_mod_cast hcount)
  · exact div_nonneg (div_nonneg (Nat.cast_nonneg _) (Nat.cast_nonneg _))
      (Nat.cast_nonneg _)
  · refine (div_le_one hwR).mpr ((div_le_iff₀ hm00R).mpr ?_)
    exact_mod_cast m10_le img hrect
  · exact div_nonneg (div_nonneg (Nat.cast_nonneg _) (Nat.cast_nonneg _))
      (Nat.cast_nonneg _)
  · refine (div_le_one hhR).mpr ((div_le_iff₀ hm00R).mpr ?_)
    exact_mod_cast m01_le img

/-- Witness for C10: a 2×2 binarized bitmap with two lit pixels. -/
theorem extract_features_ranges_witness :
    ∃ d cx cy : ℚ,
      (extract_features (fun _ => ⟨0, 0, 0⟩) ⟨[[0, 255], [255, 0]]⟩)[1]? = some d ∧
      (extract_features (fun _ => ⟨0, 0, 0⟩) ⟨[[0, 255], [255, 0]]⟩)[2]? = some cx ∧
      (extract_features (fun _ => ⟨0, 0, 0⟩) ⟨[[0, 255], [255, 0]]⟩)[3]? = some cy ∧
      0 < d ∧ d ≤ 1 ∧ 0 ≤ cx ∧ cx ≤ 1 ∧ 0 ≤ cy ∧ cy ≤ 1 :=
  extract_features_ranges (fun _ => ⟨0, 0, 0⟩) ⟨[[0, 255], [255, 0]]⟩
    (by decide) (by decide) (by decide)

end FontSnip
